import Mathlib

/-!
Shallow embedding of the utagrades client logic, translated from
`src/app/components/SearchBar.tsx` and `src/app/results/page.tsx`.

Strings are modelled as `List Char` (`Str`); JavaScript strings are
sequences of code units, and all operations used by the client
(regex character classes, `split`, `replace`, `trim`, equality) act
elementwise, so a character list is a faithful carrier.
-/

set_option maxHeartbeats 1000000

abbrev Str := List Char

/-- Model of the JavaScript `\s` character class (also used by
`String.prototype.trim`): ASCII whitespace, NBSP, and the Unicode
space separators / line terminators / BOM. -/
def isWs (c : Char) : Bool :=
  let n := c.toNat
  n == 32 || n == 9 || n == 10 || n == 11 || n == 12 || n == 13 ||
  n == 0xA0 || n == 0x1680 || (0x2000 ≤ n && n ≤ 0x200A) ||
  n == 0x2028 || n == 0x2029 || n == 0x202F || n == 0x205F ||
  n == 0x3000 || n == 0xFEFF

/-- Model of the regex class `[a-zA-Z]`. -/
def isAlphaCh (c : Char) : Bool :=
  (97 ≤ c.toNat && c.toNat ≤ 122) || (65 ≤ c.toNat && c.toNat ≤ 90)

/-- Model of the regex class `\d` ( = `[0-9]` in JavaScript). -/
def isDigitCh (c : Char) : Bool :=
  48 ≤ c.toNat && c.toNat ≤ 57

/-- `input.replace(/\s+/g, '')`: drop every whitespace character. -/
def strip (s : Str) : Str := s.filter (fun c => !isWs c)

/-- Scan underlying `collapse`; `inWs` records whether the previous
character was whitespace (so later characters of a run are dropped). -/
def collapseAux (inWs : Bool) : Str → Str
  | [] => []
  | c :: cs =>
    if isWs c then
      if inWs then collapseAux true cs else ' ' :: collapseAux true cs
    else c :: collapseAux false cs

/-- `input.replace(/\s+/g, ' ')`: each maximal run of whitespace
becomes a single ASCII space. -/
def collapse (s : Str) : Str := collapseAux false s

/-- Remove the maximal whitespace suffix (right half of `trim()`). -/
def rstrip : Str → Str
  | [] => []
  | c :: cs =>
    match rstrip cs with
    | [] => if isWs c then [] else [c]
    | d :: r => c :: d :: r

/-- `String.prototype.trim()`: remove leading and trailing whitespace. -/
def trimWs (s : Str) : Str := rstrip (s.dropWhile isWs)

/-- `str.split(" ")`: split on each single space character; empty
fields are kept, and the result is always non-empty. -/
def splitSp : Str → List Str
  | [] => [[]]
  | c :: cs =>
    match splitSp cs with
    | [] => [[]]
    | w :: ws => if c = ' ' then [] :: w :: ws else (c :: w) :: ws

/-- `arr.join(" ")` on a list of strings. -/
def joinSp : List Str → Str
  | [] => []
  | [w] => w
  | w :: ws => w ++ ' ' :: joinSp ws

/-- Full-string test for `/^[a-zA-Z]+\d+$/` on `s`: a non-empty alpha
run followed by a non-empty digit run.  Because the character classes
are disjoint, the alpha run is necessarily the maximal alpha prefix. -/
def coursePattern (s : Str) : Bool :=
  !(s.takeWhile isAlphaCh).isEmpty &&
  !(s.dropWhile isAlphaCh).isEmpty &&
  (s.dropWhile isAlphaCh).all isDigitCh

/-- Result of `noSpaces.replace(/([a-zA-Z]+)(\d+)/i, '$1 $2')` on a
string that passes `coursePattern`: the single match covers the whole
string, so the letters and digits are re-joined with one space. -/
def courseNormalize (s : Str) : Str :=
  s.takeWhile isAlphaCh ++ ' ' :: s.dropWhile isAlphaCh

/-- Full-string test for `/^[a-zA-Z]+g$/i` on `s`: all letters, at
least two of them, the last being `g` or `G`. -/
def profPattern (s : Str) : Bool :=
  s.all isAlphaCh && decide (2 ≤ s.length) &&
  (match s.getLast? with
   | some c => c == 'g' || c == 'G'
   | none => false)

/-- Result of `noSpaces.replace(/g$/i, ' g')` on a string that passes
`profPattern`: the final `g`/`G` is replaced by the literal `" g"`. -/
def profNormalize (s : Str) : Str := s.dropLast ++ [' ', 'g']

/-- `normalizeSearchInput` from `SearchBar.tsx`: course codes are
re-spaced, names ending in `g` get the `g` split off, and every other
input has its whitespace collapsed and trimmed. -/
def normalizeSearchInput (input : Str) : Str :=
  if coursePattern (strip input) then courseNormalize (strip input)
  else if profPattern (strip input) then profNormalize (strip input)
  else trimWs (collapse input)

/-- Non-empty all-digit string. -/
def digitsRun (s : Str) : Bool := !s.isEmpty && s.all isDigitCh

/-- Optional exponent suffix of a JavaScript numeric string:
either nothing, or `e`/`E`, an optional sign, and digits. -/
def expTail : Str → Bool
  | [] => true
  | c :: cs =>
    (c == 'e' || c == 'E') &&
    (match cs with
     | d :: ds => if d == '+' || d == '-' then digitsRun ds else digitsRun cs
     | [] => false)

/-- Unsigned decimal literal of the JavaScript `StringNumericLiteral`
grammar: `digits`, `digits.digits?`, or `.digits`, each with an
optional exponent. -/
def unsignedDec (s : Str) : Bool :=
  let ip := s.takeWhile isDigitCh
  let r1 := s.dropWhile isDigitCh
  match r1 with
  | [] => !ip.isEmpty
  | c :: r2 =>
    if c == '.' then
      let fp := r2.takeWhile isDigitCh
      let r3 := r2.dropWhile isDigitCh
      (!ip.isEmpty || !fp.isEmpty) && expTail r3
    else !ip.isEmpty && expTail r1

def infinityLit : Str := ['I', 'n', 'f', 'i', 'n', 'i', 't', 'y']

def isHexDigit (c : Char) : Bool :=
  isDigitCh c || (97 ≤ c.toNat && c.toNat ≤ 102) || (65 ≤ c.toNat && c.toNat ≤ 70)

/-- Unsigned part of a decimal literal, or `Infinity`. -/
def unsignedDecOrInf (s : Str) : Bool := s == infinityLit || unsignedDec s

/-- Model of `!isNaN(Number(str))`: the trimmed string is empty
(`Number('') = 0`) or is a `StringNumericLiteral` — an optionally
signed decimal/Infinity literal, or an unsigned hex/octal/binary
literal. -/
def jsNotNaN (s : Str) : Bool :=
  match trimWs s with
  | [] => true
  | c :: cs =>
    if c == '+' || c == '-' then unsignedDecOrInf cs
    else if c == '0' then
      match cs with
      | d :: ds =>
        if d == 'x' || d == 'X' then !ds.isEmpty && ds.all isHexDigit
        else if d == 'o' || d == 'O' then !ds.isEmpty && ds.all (fun e => 48 ≤ e.toNat && e.toNat ≤ 55)
        else if d == 'b' || d == 'B' then !ds.isEmpty && ds.all (fun e => e == '0' || e == '1')
        else unsignedDec (c :: cs)
      | [] => true
    else unsignedDecOrInf (c :: cs)

/-- A suggestion entry returned by `/api/courses/search?query=`. -/
structure Suggestion where
  suggestion : Str
  type : Str
deriving DecidableEq, Repr

def professorTypeLit : Str := ['p', 'r', 'o', 'f', 'e', 's', 's', 'o', 'r']

/-- The `routeType` prop of `SearchBar` ("course" | "professor");
`none` models both `null` and an absent prop. -/
inductive RouteKind
  | course
  | professor
deriving DecidableEq, Repr

/-- The navigation target pushed by `handleSearch`:
`/results?professor=<value>` or `/results?course=<value>`. -/
inductive Route
  | professorResults (value : Str)
  | courseResults (value : Str)
deriving DecidableEq, Repr

/-- First two space-separated tokens of the selected suggestion,
re-joined:  `suggestion.split(" ").slice(0, 2).join(" ")`. -/
def courseSuggestionOf (sel : Str) : Str := joinSp ((splitSp sel).take 2)

/-- The value carried into the navigation route by `handleSearch`:
if the first two tokens split into two parts and the second is a
4-character string accepted by `Number`, the selection is rewritten
to `"<PREFIX> <NUMBER>"`; otherwise it is used unchanged. -/
def navValue (sel : Str) : Str :=
  match splitSp (courseSuggestionOf sel) with
  | p0 :: p1 :: _ =>
    if p1.length == 4 && jsNotNaN p1 then p0 ++ ' ' :: p1 else sel
  | _ => sel

/-- Observable outcome of one `handleSearch` call: how many times the
`resetState` callback ran, and the route pushed. -/
structure SearchOutcome where
  resetCalls : Nat
  route : Route
deriving DecidableEq, Repr

/-- `handleSearch` from `SearchBar.tsx`.  `course`/`professor` are the
props of the currently displayed view (`none` = undefined),
`resetSupplied` says whether a `resetState` callback was passed, and
`sugs` is the suggestion list in scope when the handler runs. -/
def handleSearch (course professor : Option Str) (routeType : Option RouteKind)
    (resetSupplied : Bool) (sugs : List Suggestion) (sel : Str) : SearchOutcome :=
  let courseSuggestion := courseSuggestionOf sel
  let resetCalls :=
    if ¬((course = some courseSuggestion ∧ routeType = some RouteKind.course) ∨
         (professor = some sel ∧ routeType = some RouteKind.professor)) then
      if resetSupplied then 1 else 0
    else 0
  let isProfessor :=
    (sugs.find? (fun s => s.suggestion == sel && s.type == professorTypeLit)).isSome
  let value := navValue sel
  { resetCalls := resetCalls
    route := if isProfessor then Route.professorResults value
             else Route.courseResults value }

/-- One historical course-section record fetched by the results page.
`course_gpa` is carried opaquely (the page never computes with it);
it is modelled as an integer number of hundredths. -/
structure SectionRecord where
  subject_id : Str
  course_number : Str
  instructor1 : Str
  year : Str
  semester : Str
  section_number : Str
  course_gpa : Int
  grades_count : Nat
deriving DecidableEq, Repr

/-- One step of the fold used both by `[...new Set(xs)]` and by the
`reduce` in `finalFilteredCourses`: append the item unless an element
with the same key is already present. -/
def dedupStep (key : α → β) [BEq β] (acc : List α) (item : α) : List α :=
  if acc.any (fun c => key c == key item) then acc else acc ++ [item]

/-- Left fold that keeps the first occurrence of each key; the shape
the source writes with `reduce` / `new Set`. -/
def dedupFold (key : α → β) [BEq β] (l : List α) : List α :=
  l.foldl (dedupStep key) []

/-- Recursive formulation of "deduplicate keeping the first occurrence
of each key", the wording of the specification. -/
def dedupKeepFirst (key : α → β) [BEq β] : List α → List α
  | [] => []
  | x :: xs => x :: dedupKeepFirst key (xs.filter (fun y => !(key y == key x)))
termination_by l => l.length
decreasing_by
  simp only [List.length_cons]
  exact Nat.lt_succ_of_le (List.length_filter_le _ _)

/-- `professors` on the results page:
`[...new Set(courses.map(c => c.instructor1))]`. -/
def professors (courses : List SectionRecord) : List Str :=
  dedupFold (fun x => x) (courses.map (·.instructor1))

/-- JavaScript truthiness of a nullable-string state variable:
`null`/`undefined` and the empty string are falsy. -/
def truthy : Option Str → Bool
  | none => false
  | some s => !s.isEmpty

/-- `filteredCourses` on the results page:
`selectedProfessor ? courses.filter(c => c.instructor1 === selectedProfessor) : []`. -/
def filteredCourses (courses : List SectionRecord) (selectedProfessor : Option Str) :
    List SectionRecord :=
  match selectedProfessor with
  | some p => if p.isEmpty then [] else courses.filter (fun c => c.instructor1 == p)
  | none => []

/-- `years` on the results page. -/
def yearsOf (courses : List SectionRecord) (selectedProfessor : Option Str) : List Str :=
  dedupFold (fun x => x) ((filteredCourses courses selectedProfessor).map (·.year))

/-- `semesters` on the results page. -/
def semestersOf (courses : List SectionRecord) (selectedProfessor : Option Str) : List Str :=
  dedupFold (fun x => x) ((filteredCourses courses selectedProfessor).map (·.semester))

/-- The per-record predicate of `finalFilteredCourses`:
`(selectedYear ? c.year === selectedYear : true) && (selectedSemester ? ... : true)`. -/
def matchesFilters (selectedYear selectedSemester : Option Str) (c : SectionRecord) : Bool :=
  (match selectedYear with
   | some y => if y.isEmpty then true else c.year == y
   | none => true) &&
  (match selectedSemester with
   | some m => if m.isEmpty then true else c.semester == m
   | none => true)

/-- `finalFilteredCourses` on the results page: the professor-filtered
list, narrowed by the year/semester predicate, then deduplicated by
`section_number` with the `reduce` fold. -/
def finalFilteredCourses (courses : List SectionRecord)
    (selectedProfessor selectedYear selectedSemester : Option Str) : List SectionRecord :=
  dedupFold (·.section_number)
    ((filteredCourses courses selectedProfessor).filter (matchesFilters selectedYear selectedSemester))

/-- The selection state held by the results page. -/
structure ResultsState where
  courses : List SectionRecord
  selectedProfessor : Option Str
  selectedYear : Option Str
  selectedSemester : Option Str
  selectedSection : Option SectionRecord
deriving DecidableEq, Repr

/-- `handleProfessorClick` from the results page. -/
def handleProfessorClick (p : Str) (st : ResultsState) : ResultsState :=
  { st with
    selectedProfessor := some p
    selectedYear := none
    selectedSemester := none
    selectedSection := none }

/-- The wait of `debounce(..., 100)` in `SearchBar.tsx`, milliseconds. -/
def debounceWait : Nat := 100

/-- Trailing-edge semantics of `lodash.debounce` over a keystroke
trace `(time, input)` with strictly increasing times: a keystroke's
callback fires `debounceWait` ms later, with that keystroke's input,
unless a newer keystroke lands within the window (in which case the
older one is superseded and never fires). -/
def fires : List (Nat × Str) → List (Nat × Str)
  | [] => []
  | (t, s) :: rest =>
    match rest with
    | [] => [(t + debounceWait, s)]
    | (t', _) :: _ =>
      (if t + debounceWait < t' then [(t + debounceWait, s)] else []) ++ fires rest

/-- The network requests issued by the debounced callback: the body
fetches only in its `input.length > 0` branch, one request per fire. -/
def requestsOf (events : List (Nat × Str)) : List (Nat × Str) :=
  (fires events).filter (fun e => decide (0 < e.2.length))

/-- Suggestion state after the debounced body runs once: a non-empty
input stores the fetched data (`oracle` models a successful fetch),
an empty input stores `[]`. -/
def bodySuggestions (oracle : Str → List Suggestion)
    (_prev : List Suggestion) (input : Str) : List Suggestion :=
  if 0 < input.length then oracle input else []

/-- Suggestion state after a sequence of debounced-body fires. -/
def suggestionsFold (oracle : Str → List Suggestion)
    (init : List Suggestion) (fs : List (Nat × Str)) : List Suggestion :=
  fs.foldl (fun st e => bodySuggestions oracle st e.2) init

/-- The suggestion list visible at time `t`, given the keystroke trace
`events`: all fires due at or before `t` have run, in order. -/
def suggestionsAt (oracle : Str → List Suggestion) (init : List Suggestion)
    (events : List (Nat × Str)) (t : Nat) : List Suggestion :=
  suggestionsFold oracle init ((fires events).filter (fun e => e.1 ≤ t))

/-- Fetcher state touched by one debounced dispatch. -/
structure FetcherState where
  suggestions : List Suggestion
  isLoading : Bool
deriving DecidableEq, Repr

/-- Outcome of `await fetch(...)` followed by `await response.json()`:
either parsed data, or a transport/parse failure (the two failure
modes are caught by the same `catch`). -/
inductive FetchResult
  | ok (data : List Suggestion)
  | err
deriving DecidableEq, Repr

/-- One run of the debounced callback body in `SearchBar.tsx`, with
the fetch outcome made explicit.  Returns the final state and the
number of `console.error` logs.  The `try`/`catch` is the `match`;
the `finally` is the last record update, applied on both paths. -/
def runDispatch (input : Str) (res : FetchResult) (st : FetcherState) :
    FetcherState × Nat :=
  if 0 < input.length then
    let st1 := { st with isLoading := true }
    let afterTry :=
      match res with
      | FetchResult.ok data => ({ st1 with suggestions := data }, 0)
      | FetchResult.err => ({ st1 with suggestions := [] }, 1)
    ({ afterTry.1 with isLoading := false }, afterTry.2)
  else ({ st with suggestions := [] }, 0)

/-- The narrowing of the professor-filtered list described by the
specification: keep a record when it matches `selectedYear` (whenever
that selection is set, i.e. non-null and non-empty — the code's
truthiness test) and likewise `selectedSemester`. -/
def specNarrowed (courses : List SectionRecord)
    (selectedProfessor selectedYear selectedSemester : Option Str) : List SectionRecord :=
  (filteredCourses courses selectedProfessor).filter (fun c =>
    (if truthy selectedYear then c.year == selectedYear.getD [] else true) &&
    (if truthy selectedSemester then c.semester == selectedSemester.getD [] else true))

/-- The string does not start with whitespace. -/
def noLeadWs : Str → Bool
  | [] => true
  | c :: _ => !isWs c

/-- Every whitespace character is an ASCII space and is not followed
by another whitespace character (a single trailing space is allowed). -/
def spacedOk : Str → Bool
  | [] => true
  | [c] => !isWs c || c == ' '
  | c :: d :: rest => (!isWs c || (c == ' ' && !isWs d)) && spacedOk (d :: rest)

/-- Like `spacedOk`, but additionally the string does not end with
whitespace. -/
def wfTail : Str → Bool
  | [] => true
  | [c] => !isWs c
  | c :: d :: rest => (!isWs c || (c == ' ' && !isWs d)) && wfTail (d :: rest)

/-! ## Character-class facts -/

theorem alpha_not_ws {c : Char} (h : isAlphaCh c = true) : isWs c = false := by
  simp only [isAlphaCh, Bool.or_eq_true, Bool.and_eq_true, decide_eq_true_eq] at h
  simp only [isWs, Bool.or_eq_false_iff, Bool.and_eq_false_iff,
    beq_eq_false_iff_ne, ne_eq, decide_eq_false_iff_not, not_le]
  omega

theorem digit_not_ws {c : Char} (h : isDigitCh c = true) : isWs c = false := by
  simp only [isDigitCh, Bool.and_eq_true, decide_eq_true_eq] at h
  simp only [isWs, Bool.or_eq_false_iff, Bool.and_eq_false_iff,
    beq_eq_false_iff_ne, ne_eq, decide_eq_false_iff_not, not_le]
  omega

theorem digit_not_alpha {c : Char} (h : isDigitCh c = true) : isAlphaCh c = false := by
  simp only [isDigitCh, Bool.and_eq_true, decide_eq_true_eq] at h
  simp only [isAlphaCh, Bool.or_eq_false_iff, Bool.and_eq_false_iff,
    decide_eq_false_iff_not, not_le]
  omega

/-! ## `strip` facts -/

theorem strip_append (a b : Str) : strip (a ++ b) = strip a ++ strip b :=
  List.filter_append ..

theorem strip_of_all_alpha {l : Str} (h : l.all isAlphaCh = true) : strip l = l := by
  refine List.filter_eq_self.2 (fun c hc => ?_)
  simp only [List.all_eq_true] at h
  simp [alpha_not_ws (h c hc)]

theorem strip_of_all_digit {l : Str} (h : l.all isDigitCh = true) : strip l = l := by
  refine List.filter_eq_self.2 (fun c hc => ?_)
  simp only [List.all_eq_true] at h
  simp [digit_not_ws (h c hc)]

theorem strip_cons_ws {c : Char} (h : isWs c = true) (b : Str) :
    strip (c :: b) = strip b := by
  simp [strip, List.filter_cons, h]

theorem strip_cons_nonws {c : Char} (h : isWs c = false) (b : Str) :
    strip (c :: b) = c :: strip b := by
  simp [strip, List.filter_cons, h]

theorem strip_collapseAux : ∀ (s : Str) (b : Bool), strip (collapseAux b s) = strip s := by
  intro s
  induction s with
  | nil => intro b; rfl
  | cons c cs ih =>
    intro b
    cases hc : isWs c with
    | true =>
      have hsp : isWs ' ' = true := by decide
      cases b with
      | true =>
        rw [show collapseAux true (c :: cs) = collapseAux true cs by
              simp [collapseAux, hc],
            strip_cons_ws hc]
        exact ih true
      | false =>
        rw [show collapseAux false (c :: cs) = ' ' :: collapseAux true cs by
              simp [collapseAux, hc],
            strip_cons_ws hsp, strip_cons_ws hc]
        exact ih true
    | false =>
      rw [show collapseAux b (c :: cs) = c :: collapseAux false cs by
            cases b <;> simp [collapseAux, hc],
          strip_cons_nonws hc, strip_cons_nonws hc]
      exact congrArg _ (ih false)

theorem strip_dropWhile_ws : ∀ s : Str, strip (s.dropWhile isWs) = strip s := by
  intro s
  induction s with
  | nil => rfl
  | cons c cs ih =>
    cases hc : isWs c with
    | true => rw [List.dropWhile_cons_of_pos hc, strip_cons_ws hc]; exact ih
    | false => rw [List.dropWhile_cons_of_neg (by simp [hc])]

theorem strip_rstrip : ∀ s : Str, strip (rstrip s) = strip s := by
  intro s
  induction s with
  | nil => rfl
  | cons c cs ih =>
    cases hr : rstrip cs with
    | nil =>
      cases hc : isWs c with
      | true =>
        rw [show rstrip (c :: cs) = [] by simp [rstrip, hr, hc],
            strip_cons_ws hc, ← ih, hr]
      | false =>
        rw [show rstrip (c :: cs) = [c] by simp [rstrip, hr, hc],
            strip_cons_nonws hc, strip_cons_nonws hc, ← ih, hr]
    | cons d r =>
      rw [show rstrip (c :: cs) = c :: d :: r by simp [rstrip, hr]]
      cases hc : isWs c with
      | true => rw [strip_cons_ws hc, strip_cons_ws hc, ← hr]; exact ih
      | false =>
        rw [strip_cons_nonws hc, strip_cons_nonws hc, ← hr]
        exact congrArg _ ih

theorem strip_trimWs (s : Str) : strip (trimWs s) = strip s := by
  rw [trimWs, strip_rstrip, strip_dropWhile_ws]

theorem strip_collapse (s : Str) : strip (collapse s) = strip s :=
  strip_collapseAux s false

/-! ## Collapse/trim well-formedness -/

theorem noLead_collapseAux_true : ∀ s : Str, noLeadWs (collapseAux true s) = true := by
  intro s
  induction s with
  | nil => rfl
  | cons c cs ih =>
    cases hc : isWs c with
    | true => simpa [collapseAux, hc] using ih
    | false => simp [collapseAux, hc, noLeadWs]

theorem spacedOk_cons_nonws {c : Char} {x : Str} (hc : isWs c = false)
    (hx : spacedOk x = true) : spacedOk (c :: x) = true := by
  cases x with
  | nil => simp [spacedOk, hc]
  | cons d r => simp [spacedOk, hc, hx]

theorem spacedOk_cons_space {x : Str} (h1 : noLeadWs x = true)
    (hx : spacedOk x = true) : spacedOk (' ' :: x) = true := by
  cases x with
  | nil => decide
  | cons d r =>
    simp only [noLeadWs, Bool.not_eq_eq_eq_not, Bool.not_true] at h1
    simp [spacedOk, h1, hx]

theorem spacedOk_collapseAux : ∀ (s : Str) (b : Bool), spacedOk (collapseAux b s) = true := by
  intro s
  induction s with
  | nil => intro b; rfl
  | cons c cs ih =>
    intro b
    cases hc : isWs c with
    | true =>
      cases b with
      | true => simpa [collapseAux, hc] using ih true
      | false =>
        rw [show collapseAux false (c :: cs) = ' ' :: collapseAux true cs by
              simp [collapseAux, hc]]
        exact spacedOk_cons_space (noLead_collapseAux_true cs) (ih true)
    | false =>
      rw [show collapseAux b (c :: cs) = c :: collapseAux false cs by
            cases b <;> simp [collapseAux, hc]]
      exact spacedOk_cons_nonws hc (ih false)

theorem spacedOk_tail {c : Char} {x : Str} (h : spacedOk (c :: x) = true) :
    spacedOk x = true := by
  cases x with
  | nil => rfl
  | cons d r =>
    simp only [spacedOk, Bool.and_eq_true] at h
    exact h.2

theorem spacedOk_dropWhile {s : Str} (h : spacedOk s = true) :
    spacedOk (s.dropWhile isWs) = true := by
  induction s with
  | nil => exact h
  | cons c cs ih =>
    cases hc : isWs c with
    | true => rw [List.dropWhile_cons_of_pos hc]; exact ih (spacedOk_tail h)
    | false => rwa [List.dropWhile_cons_of_neg (by simp [hc])]

theorem noLead_dropWhile : ∀ s : Str, noLeadWs (s.dropWhile isWs) = true := by
  intro s
  induction s with
  | nil => rfl
  | cons c cs ih =>
    cases hc : isWs c with
    | true => rw [List.dropWhile_cons_of_pos hc]; exact ih
    | false => rw [List.dropWhile_cons_of_neg (by simp [hc])]; simp [noLeadWs, hc]

theorem rstrip_head_eq (e : Char) (es : Str) :
    rstrip (e :: es) = [] ∨ ∃ r, rstrip (e :: es) = e :: r := by
  cases hr : rstrip es with
  | nil =>
    cases he : isWs e with
    | true => left; simp [rstrip, hr, he]
    | false => right; exact ⟨[], by simp [rstrip, hr, he]⟩
  | cons d r => right; exact ⟨d :: r, by simp [rstrip, hr]⟩

theorem wfTail_rstrip : ∀ {s : Str}, spacedOk s = true → wfTail (rstrip s) = true := by
  intro s
  induction s with
  | nil => intro _; rfl
  | cons c cs ih =>
    intro h
    cases hr : rstrip cs with
    | nil =>
      cases hc : isWs c with
      | true => simp [rstrip, hr, hc, wfTail]
      | false => simp [rstrip, hr, hc, wfTail]
    | cons d r =>
      rw [show rstrip (c :: cs) = c :: d :: r by simp [rstrip, hr]]
      have htail : wfTail (d :: r) = true := hr ▸ ih (spacedOk_tail h)
      cases hc : isWs c with
      | false => simp [wfTail, hc, htail]
      | true =>
        cases cs with
        | nil => simp [rstrip] at hr
        | cons e es =>
          have hds := rstrip_head_eq e es
          rw [hr] at hds
          rcases hds with hds | ⟨r', hds⟩
          · exact absurd hds (by simp)
          · have hde : d = e := by
              have h12 : d = e ∧ r = r' := by simpa using hds
              exact h12.1
            simp only [spacedOk, hc, Bool.not_true, Bool.false_or,
              Bool.and_eq_true, beq_iff_eq] at h
            have hce : c = ' ' := h.1.1
            have hwe : isWs e = false := by simpa using h.1.2
            rw [hde] at htail
            simp [wfTail, hc, hce, hde, hwe, htail]

theorem noLead_rstrip {s : Str} (h : noLeadWs s = true) : noLeadWs (rstrip s) = true := by
  cases s with
  | nil => rfl
  | cons c cs =>
    rcases rstrip_head_eq c cs with hr | ⟨r, hr⟩
    · simp [hr, noLeadWs]
    · rw [hr]
      simpa [noLeadWs] using h

theorem collapseAux_true_eq_false {c : Char} (hc : isWs c = false) (cs : Str) :
    collapseAux true (c :: cs) = collapseAux false (c :: cs) := by
  simp [collapseAux, hc]

theorem collapse_of_wfTail : ∀ {s : Str}, wfTail s = true → collapse s = s := by
  intro s
  induction s with
  | nil => intro _; rfl
  | cons c cs ih =>
    intro h
    cases cs with
    | nil =>
      simp only [wfTail, Bool.not_eq_eq_eq_not, Bool.not_true] at h
      simp [collapse, collapseAux, h]
    | cons d r =>
      simp only [wfTail, Bool.and_eq_true] at h
      have htail := h.2
      cases hc : isWs c with
      | false =>
        have := ih (show wfTail (d :: r) = true from htail)
        simp only [collapse] at this ⊢
        rw [show collapseAux false (c :: d :: r) = c :: collapseAux false (d :: r) by
              simp [collapseAux, hc],
            this]
      | true =>
        rcases h with ⟨hpair, _⟩
        rw [hc] at hpair
        simp only [Bool.not_true, Bool.false_or, Bool.and_eq_true, beq_iff_eq] at hpair
        rcases hpair with ⟨hce, hd⟩
        have hwd : isWs d = false := by simpa using hd
        have htl := ih (show wfTail (d :: r) = true from htail)
        simp only [collapse] at htl ⊢
        rw [show collapseAux false (c :: d :: r) = ' ' :: collapseAux true (d :: r) by
              simp [collapseAux, hc]]
        rw [collapseAux_true_eq_false hwd, htl, hce]

theorem dropWhile_of_noLead {s : Str} (h : noLeadWs s = true) :
    s.dropWhile isWs = s := by
  cases s with
  | nil => rfl
  | cons c cs =>
    simp only [noLeadWs, Bool.not_eq_eq_eq_not, Bool.not_true] at h
    exact List.dropWhile_cons_of_neg (by simp [h])

theorem rstrip_of_wfTail : ∀ {s : Str}, wfTail s = true → rstrip s = s := by
  intro s
  induction s with
  | nil => intro _; rfl
  | cons c cs ih =>
    intro h
    cases cs with
    | nil =>
      simp only [wfTail, Bool.not_eq_eq_eq_not, Bool.not_true] at h
      simp [rstrip, h]
    | cons d r =>
      simp only [wfTail, Bool.and_eq_true] at h
      have := ih (show wfTail (d :: r) = true from h.2)
      rw [show rstrip (c :: d :: r) =
            (match rstrip (d :: r) with
             | [] => if isWs c then [] else [c]
             | e :: r2 => c :: e :: r2) from rfl,
          this]

theorem trimWs_of_wf {s : Str} (h1 : noLeadWs s = true) (h2 : wfTail s = true) :
    trimWs s = s := by
  rw [trimWs, dropWhile_of_noLead h1, rstrip_of_wfTail h2]

theorem wf_trimWs_collapse (s : Str) :
    noLeadWs (trimWs (collapse s)) = true ∧ wfTail (trimWs (collapse s)) = true := by
  have hu : spacedOk (collapse s) = true := spacedOk_collapseAux s false
  have hy1 : spacedOk ((collapse s).dropWhile isWs) = true := spacedOk_dropWhile hu
  have hy2 : noLeadWs ((collapse s).dropWhile isWs) = true := noLead_dropWhile _
  exact ⟨noLead_rstrip hy2, wfTail_rstrip hy1⟩

theorem trimWs_collapse_idem (s : Str) :
    trimWs (collapse (trimWs (collapse s))) = trimWs (collapse s) := by
  obtain ⟨h1, h2⟩ := wf_trimWs_collapse s
  rw [collapse_of_wfTail h2, trimWs_of_wf h1 h2]

/-! ## Course-pattern and prof-pattern facts -/

theorem takeWhile_append_all {p : Char → Bool} :
    ∀ {L D : Str}, L.all p = true → (L ++ D).takeWhile p = L ++ D.takeWhile p := by
  intro L
  induction L with
  | nil => intro D _; rfl
  | cons c cs ih =>
    intro D h
    simp only [List.all_cons, Bool.and_eq_true] at h
    simp [List.cons_append, List.takeWhile_cons, h.1, ih h.2]

theorem dropWhile_append_all {p : Char → Bool} :
    ∀ {L D : Str}, L.all p = true → (L ++ D).dropWhile p = D.dropWhile p := by
  intro L
  induction L with
  | nil => intro D _; rfl
  | cons c cs ih =>
    intro D h
    simp only [List.all_cons, Bool.and_eq_true] at h
    simp only [List.cons_append, List.dropWhile_cons, h.1, if_true, ih h.2]

theorem takeWhile_head_neg {p : Char → Bool} {D : Str}
    (h : ∀ c ∈ D.head?, p c = false) : D.takeWhile p = [] := by
  cases D with
  | nil => rfl
  | cons d ds => simp [List.takeWhile_cons, h d rfl]

theorem dropWhile_head_neg {p : Char → Bool} {D : Str}
    (h : ∀ c ∈ D.head?, p c = false) : D.dropWhile p = D := by
  cases D with
  | nil => rfl
  | cons d ds => simp [List.dropWhile_cons, h d rfl]

theorem digits_head_not_alpha {D : Str} (hDd : D.all isDigitCh = true) :
    ∀ c ∈ D.head?, isAlphaCh c = false := by
  intro c hc
  cases D with
  | nil => simp at hc
  | cons d ds =>
    simp only [List.head?_cons, Option.mem_def, Option.some.injEq] at hc
    simp only [List.all_cons, Bool.and_eq_true] at hDd
    exact hc ▸ digit_not_alpha hDd.1

theorem alphaDigit_takeWhile {L D : Str} (hLa : L.all isAlphaCh = true)
    (hDd : D.all isDigitCh = true) : (L ++ D).takeWhile isAlphaCh = L := by
  rw [takeWhile_append_all hLa, takeWhile_head_neg (digits_head_not_alpha hDd),
    List.append_nil]

theorem alphaDigit_dropWhile {L D : Str} (hLa : L.all isAlphaCh = true)
    (hDd : D.all isDigitCh = true) : (L ++ D).dropWhile isAlphaCh = D := by
  rw [dropWhile_append_all hLa, dropWhile_head_neg (digits_head_not_alpha hDd)]

theorem coursePattern_of {L D : Str} (hL : L ≠ []) (hLa : L.all isAlphaCh = true)
    (hD : D ≠ []) (hDd : D.all isDigitCh = true) : coursePattern (L ++ D) = true := by
  simp [coursePattern, alphaDigit_takeWhile hLa hDd, alphaDigit_dropWhile hLa hDd,
    hL, hD, hDd, List.isEmpty_iff]

theorem courseNormalize_of {L D : Str} (hLa : L.all isAlphaCh = true)
    (hDd : D.all isDigitCh = true) : courseNormalize (L ++ D) = L ++ ' ' :: D := by
  rw [courseNormalize, alphaDigit_takeWhile hLa hDd, alphaDigit_dropWhile hLa hDd]

theorem strip_courseNormalized {L D : Str} (hLa : L.all isAlphaCh = true)
    (hDd : D.all isDigitCh = true) : strip (L ++ ' ' :: D) = L ++ D := by
  rw [strip_append, strip_cons_ws (by decide), strip_of_all_alpha hLa,
    strip_of_all_digit hDd]

theorem coursePattern_false_of_all_alpha {s : Str} (h : s.all isAlphaCh = true) :
    coursePattern s = false := by
  have hd : s.dropWhile isAlphaCh = [] := by
    rw [show s = s ++ [] by simp, dropWhile_append_all h]
    rfl
  simp [coursePattern, hd]

theorem all_dropLast {p : Char → Bool} {s : Str} (h : s.all p = true) :
    s.dropLast.all p = true := by
  simp only [List.all_eq_true] at h ⊢
  exact fun c hc => h c (List.dropLast_subset _ hc)

theorem profPattern_parts {s : Str} (h : profPattern s = true) :
    s.all isAlphaCh = true ∧ 2 ≤ s.length ∧
    (s.getLast? = some 'g' ∨ s.getLast? = some 'G') := by
  simp only [profPattern, Bool.and_eq_true, decide_eq_true_eq] at h
  obtain ⟨⟨ha, hl⟩, hg⟩ := h
  refine ⟨ha, hl, ?_⟩
  cases hq : s.getLast? with
  | none => rw [hq] at hg; simp at hg
  | some c =>
    rw [hq] at hg
    simp only [Bool.or_eq_true, beq_iff_eq] at hg
    rcases hg with hg | hg
    · exact Or.inl (by rw [hg])
    · exact Or.inr (by rw [hg])

theorem profPattern_decomp {s : Str} (h : profPattern s = true) :
    ∃ c, s = s.dropLast ++ [c] ∧ (c = 'g' ∨ c = 'G') := by
  obtain ⟨_, hl, hg⟩ := profPattern_parts h
  have hne : s ≠ [] := by
    intro hnil
    rw [hnil] at hl
    simp at hl
  refine ⟨s.getLast hne, (List.dropLast_append_getLast hne).symm, ?_⟩
  have hq := List.getLast?_eq_getLast s hne
  rcases hg with hg | hg
  · left; rw [hq] at hg; exact (Option.some.injEq _ _ ▸ hg).symm ▸ rfl
  · right; rw [hq] at hg; exact (Option.some.injEq _ _ ▸ hg).symm ▸ rfl

theorem strip_profNormalized {A : Str} (hA : A.all isAlphaCh = true) :
    strip (A ++ [' ', 'g']) = A ++ ['g'] := by
  rw [strip_append, strip_of_all_alpha hA]
  rfl

theorem profPattern_again {A : Str} (hA : A.all isAlphaCh = true) (hne : A ≠ []) :
    profPattern (A ++ ['g']) = true := by
  have hall : (A ++ ['g']).all isAlphaCh = true := by
    simp only [List.all_append, Bool.and_eq_true]
    exact ⟨hA, by decide⟩
  have hlen : 2 ≤ (A ++ ['g']).length := by
    simp only [List.length_append, List.length_cons, List.length_nil]
    have h1 : 0 < A.length := List.length_pos.2 hne
    omega
  have h1 : 0 < A.length := List.length_pos.2 hne
  simp only [profPattern, hall, List.getLast?_concat, Bool.true_and, Bool.and_eq_true,
    decide_eq_true_eq]
  constructor
  · simp only [List.length_append, List.length_cons, List.length_nil]
    omega
  · decide

/-- **C4.** For every input whose whitespace-stripped form consists of
leading letters followed by trailing digits (the `^[A-Za-z]+\d+$`
course pattern), `normalizeSearchInput` returns the letters, a single
space, and the digits, with the letters' case preserved. -/
theorem normalizeSearchInput_course_code (x L D : Str) (hLD : strip x = L ++ D)
    (hL : L ≠ []) (hLa : L.all isAlphaCh = true) (hD : D ≠ [])
    (hDd : D.all isDigitCh = true) : normalizeSearchInput x = L ++ ' ' :: D := by
  have hcp : coursePattern (strip x) = true := by
    rw [hLD]; exact coursePattern_of hL hLa hD hDd
  simp only [normalizeSearchInput, hcp, if_true]
  rw [hLD, courseNormalize_of hLa hDd]

/-- Witness for C4: `normalizeSearchInput "cse1310" = "cse 1310"`. -/
theorem normalizeSearchInput_course_code_witness :
    normalizeSearchInput ['c', 's', 'e', '1', '3', '1', '0'] =
      ['c', 's', 'e', ' ', '1', '3', '1', '0'] :=
  normalizeSearchInput_course_code ['c', 's', 'e', '1', '3', '1', '0']
    ['c', 's', 'e'] ['1', '3', '1', '0'] (by decide) (by decide) (by decide)
    (by decide) (by decide)

/-- **C5.** `normalizeSearchInput` is idempotent. -/
theorem normalizeSearchInput_idem (x : Str) :
    normalizeSearchInput (normalizeSearchInput x) = normalizeSearchInput x := by
  by_cases h1 : coursePattern (strip x) = true
  · -- course-code branch re-enters the course-code branch
    have hstep : normalizeSearchInput x = courseNormalize (strip x) := by
      simp [normalizeSearchInput, h1]
    have hLD : strip x = (strip x).takeWhile isAlphaCh ++ (strip x).dropWhile isAlphaCh :=
      (List.takeWhile_append_dropWhile ..).symm
    have hLa : ((strip x).takeWhile isAlphaCh).all isAlphaCh = true := List.all_takeWhile
    have hDd : ((strip x).dropWhile isAlphaCh).all isDigitCh = true := by
      simp only [coursePattern, Bool.and_eq_true] at h1
      exact h1.2
    have hout : courseNormalize (strip x) =
        (strip x).takeWhile isAlphaCh ++ ' ' :: (strip x).dropWhile isAlphaCh := rfl
    rw [hstep, hout]
    have hsx : strip ((strip x).takeWhile isAlphaCh ++ ' ' :: (strip x).dropWhile isAlphaCh) =
        strip x := by
      rw [strip_courseNormalized hLa hDd, ← hLD]
    have h1' : coursePattern (strip ((strip x).takeWhile isAlphaCh ++
        ' ' :: (strip x).dropWhile isAlphaCh)) = true := by rw [hsx]; exact h1
    simp only [normalizeSearchInput, h1', if_true]
    rw [hsx]
    conv_lhs => rw [hLD]
    rw [courseNormalize_of hLa hDd]
  · by_cases h2 : profPattern (strip x) = true
    · -- professor-name branch re-enters the professor-name branch
      have h1f : coursePattern (strip x) = false := by simpa using h1
      have hstep : normalizeSearchInput x = profNormalize (strip x) := by
        simp [normalizeSearchInput, h1f, h2]
      obtain ⟨ha, hl, _⟩ := profPattern_parts h2
      have hAa : ((strip x).dropLast).all isAlphaCh = true := all_dropLast ha
      have hAne : (strip x).dropLast ≠ [] := by
        have : (strip x).dropLast.length = (strip x).length - 1 := List.length_dropLast _
        intro hnil
        rw [hnil] at this
        simp only [List.length_nil] at this
        omega
      have hout : profNormalize (strip x) = (strip x).dropLast ++ [' ', 'g'] := rfl
      rw [hstep, hout]
      have hstripout : strip ((strip x).dropLast ++ [' ', 'g']) =
          (strip x).dropLast ++ ['g'] := strip_profNormalized hAa
      have hcp : coursePattern (strip ((strip x).dropLast ++ [' ', 'g'])) = false := by
        rw [hstripout]
        refine coursePattern_false_of_all_alpha ?_
        simp only [List.all_append, Bool.and_eq_true]
        exact ⟨hAa, by decide⟩
      have hpp : profPattern (strip ((strip x).dropLast ++ [' ', 'g'])) = true := by
        rw [hstripout]; exact profPattern_again hAa hAne
      simp only [normalizeSearchInput, hcp, hpp, if_true, Bool.false_eq_true, if_false]
      rw [hstripout, profNormalize, List.dropLast_concat]
    · -- whitespace-collapse branch re-enters itself
      have h1f : coursePattern (strip x) = false := by simpa using h1
      have h2f : profPattern (strip x) = false := by simpa using h2
      have hstep : normalizeSearchInput x = trimWs (collapse x) := by
        simp [normalizeSearchInput, h1f, h2f]
      rw [hstep]
      have hsx : strip (trimWs (collapse x)) = strip x := by
        rw [strip_trimWs, strip_collapse]
      have h1' : coursePattern (strip (trimWs (collapse x))) = false := by
        rw [hsx]; exact h1f
      have h2' : profPattern (strip (trimWs (collapse x))) = false := by
        rw [hsx]; exact h2f
      simp only [normalizeSearchInput, h1', h2', Bool.false_eq_true, if_false]
      exact trimWs_collapse_idem x

/-! ## Deduplication: the `reduce`/`Set` fold keeps first occurrences -/

theorem mem_dedupKeepFirst {α β : Type} (key : α → β) [BEq β] [LawfulBEq β]
    (l : List α) (y : α) (h : y ∈ dedupKeepFirst key l) : y ∈ l := by
  induction l using dedupKeepFirst.induct key with
  | case1 => simp [dedupKeepFirst] at h
  | case2 x xs ih =>
    rw [dedupKeepFirst] at h
    rcases List.mem_cons.1 h with rfl | h
    · exact List.mem_cons_self _ _
    · exact List.mem_cons_of_mem _ (List.mem_of_mem_filter (ih h))

theorem nodup_keys_dedupKeepFirst {α β : Type} (key : α → β) [BEq β] [LawfulBEq β]
    (l : List α) : ((dedupKeepFirst key l).map key).Nodup := by
  induction l using dedupKeepFirst.induct key with
  | case1 => simp [dedupKeepFirst]
  | case2 x xs ih =>
    rw [dedupKeepFirst]
    simp only [List.map_cons, List.nodup_cons]
    refine ⟨?_, ih⟩
    intro hmem
    obtain ⟨y, hy, hky⟩ := List.mem_map.1 hmem
    have hyf := mem_dedupKeepFirst _ _ _ hy
    have := (List.mem_filter.1 hyf).2
    rw [hky] at this
    simp at this

theorem foldl_dedupStep {α β : Type} (key : α → β) [BEq β] [LawfulBEq β] :
    ∀ (l acc : List α),
      l.foldl (dedupStep key) acc =
        acc ++ dedupKeepFirst key
          (l.filter (fun y => !acc.any (fun c => key c == key y))) := by
  intro l
  induction l with
  | nil => intro acc; simp [dedupKeepFirst]
  | cons x xs ih =>
    intro acc
    rw [List.foldl_cons]
    by_cases hx : acc.any (fun c => key c == key x) = true
    · rw [show dedupStep key acc x = acc by simp [dedupStep, hx], ih,
        List.filter_cons]
      simp [hx]
    · have hxf : acc.any (fun c => key c == key x) = false := by simpa using hx
      rw [show dedupStep key acc x = acc ++ [x] by simp [dedupStep, hxf], ih,
        List.filter_cons]
      simp only [hxf, Bool.not_false, if_true]
      rw [show dedupKeepFirst key
            (x :: xs.filter (fun y => !acc.any (fun c => key c == key y))) =
          x :: dedupKeepFirst key
            ((xs.filter (fun y => !acc.any (fun c => key c == key y))).filter
              (fun y => !(key y == key x))) from by rw [dedupKeepFirst]]
      rw [List.filter_filter, List.append_assoc, List.cons_append, List.nil_append]
      congr 2
      refine congrArg _ (List.filter_congr (fun y _ => ?_))
      simp only [List.any_append, List.any_cons, List.any_nil, Bool.or_false,
        Bool.not_or]
      rw [Bool.and_comm]
      congr 1
      rw [Bool.beq_comm]

theorem dedupFold_eq_dedupKeepFirst {α β : Type} (key : α → β) [BEq β] [LawfulBEq β]
    (l : List α) : dedupFold key l = dedupKeepFirst key l := by
  rw [dedupFold, foldl_dedupStep]
  simp

theorem matchesFilters_eq_spec (sy ss : Option Str) (c : SectionRecord) :
    matchesFilters sy ss c =
      ((if truthy sy then c.year == sy.getD [] else true) &&
       (if truthy ss then c.semester == ss.getD [] else true)) := by
  have h1 : (match sy with
      | some y => if y.isEmpty then true else c.year == y
      | none => true) = (if truthy sy then c.year == sy.getD [] else true) := by
    cases sy with
    | none => rfl
    | some y =>
      by_cases hy : y.isEmpty = true
      · simp [truthy, hy]
      · have hy' : y.isEmpty = false := by simpa using hy
        simp [truthy, hy']
  have h2 : (match ss with
      | some m => if m.isEmpty then true else c.semester == m
      | none => true) = (if truthy ss then c.semester == ss.getD [] else true) := by
    cases ss with
    | none => rfl
    | some m =>
      by_cases hm : m.isEmpty = true
      · simp [truthy, hm]
      · have hm' : m.isEmpty = false := by simpa using hm
        simp [truthy, hm']
  rw [matchesFilters.eq_def, h1, h2]

/-- **C1.** `finalFilteredCourses` equals the professor-filtered list,
narrowed by the year/semester selections when they are set, then
deduplicated keeping the first occurrence of each `section_number`
(`dedupKeepFirst`); consequently its `section_number`s are pairwise
distinct even when the fetched list contains duplicates. -/
theorem finalFilteredCourses_spec (courses : List SectionRecord)
    (sp sy ss : Option Str) :
    finalFilteredCourses courses sp sy ss =
      dedupKeepFirst (·.section_number) (specNarrowed courses sp sy ss) ∧
    ((finalFilteredCourses courses sp sy ss).map (·.section_number)).Nodup := by
  have hn : (filteredCourses courses sp).filter (matchesFilters sy ss) =
      specNarrowed courses sp sy ss := by
    rw [specNarrowed]
    exact List.filter_congr (fun c _ => matchesFilters_eq_spec sy ss c)
  constructor
  · rw [finalFilteredCourses, dedupFold_eq_dedupKeepFirst, hn]
  · rw [finalFilteredCourses, dedupFold_eq_dedupKeepFirst]
    exact nodup_keys_dedupKeepFirst _ _

/-- Counterexample for C7 as stated: with one record whose
`instructor1` is the empty string and `selectedProfessor = some ""`,
the code's truthiness test yields `[]`, while "the records whose
`instructor1` equals `selectedProfessor`" would be that record. -/
theorem filteredCourses_empty_string_cex :
    ¬ (filteredCourses [⟨['c'], ['1'], [], ['2'], ['F'], ['1'], 30, 10⟩] (some []) =
        List.filter (fun c => c.instructor1 == ([] : Str))
          [⟨['c'], ['1'], [], ['2'], ['F'], ['1'], 30, 10⟩]) := by
  decide

/-- **C7 (amended).** `professors` is the distinct `instructor1` list
in first-seen order; `filteredCourses` is exactly the records of the
selected professor when one is selected — non-null and non-empty, the
code's truthiness test — and empty otherwise, including when
`selectedProfessor` is the empty string; `years` and `semesters` are
the distinct values over the filtered list.  The equations are
unconditional over every course list and selection state. -/
theorem resultsDerivations_amended (courses : List SectionRecord) (sp : Option Str) :
    professors courses = dedupKeepFirst (fun x => x) (courses.map (·.instructor1)) ∧
    filteredCourses courses sp =
      (if truthy sp then courses.filter (fun c => c.instructor1 == sp.getD []) else []) ∧
    yearsOf courses sp =
      dedupKeepFirst (fun x => x) ((filteredCourses courses sp).map (·.year)) ∧
    semestersOf courses sp =
      dedupKeepFirst (fun x => x) ((filteredCourses courses sp).map (·.semester)) := by
  refine ⟨dedupFold_eq_dedupKeepFirst .., ?_,
    dedupFold_eq_dedupKeepFirst .., dedupFold_eq_dedupKeepFirst ..⟩
  cases sp with
  | none => rfl
  | some p =>
    by_cases hp : p.isEmpty = true
    · simp [filteredCourses, truthy, hp]
    · have hp' : p.isEmpty = false := by simpa using hp
      simp [filteredCourses, truthy, hp']

/-- **C9.** `handleProfessorClick p` selects professor `p`, resets the
year, semester and section selections, and leaves the fetched course
list unchanged. -/
theorem handleProfessorClick_spec (p : Str) (st : ResultsState) :
    (handleProfessorClick p st).selectedProfessor = some p ∧
    (handleProfessorClick p st).selectedYear = none ∧
    (handleProfessorClick p st).selectedSemester = none ∧
    (handleProfessorClick p st).selectedSection = none ∧
    (handleProfessorClick p st).courses = st.courses :=
  ⟨rfl, rfl, rfl, rfl, rfl⟩

/-- **C3.** The `resetState` callback is suppressed exactly when the
selection matches the displayed content: the first two tokens of the
selection equal the displayed course under the course route, or the
selection equals the displayed professor under the professor route;
otherwise a supplied callback runs exactly once. -/
theorem handleSearch_resetCalls_spec (course professor : Option Str)
    (routeType : Option RouteKind) (resetSupplied : Bool)
    (sugs : List Suggestion) (sel : Str) :
    (handleSearch course professor routeType resetSupplied sugs sel).resetCalls =
      if (course = some (courseSuggestionOf sel) ∧ routeType = some RouteKind.course) ∨
         (professor = some sel ∧ routeType = some RouteKind.professor) then 0
      else if resetSupplied then 1 else 0 := by
  by_cases h : (course = some (courseSuggestionOf sel) ∧
      routeType = some RouteKind.course) ∨
      (professor = some sel ∧ routeType = some RouteKind.professor)
  · simp [handleSearch, h]
  · simp [handleSearch, h]

/-- **C10.** The professor route is taken exactly when the suggestion
list contains an entry whose text is the selection and whose type is
exactly `"professor"`; in every other case the course route is taken. -/
theorem handleSearch_route_spec (course professor : Option Str)
    (routeType : Option RouteKind) (resetSupplied : Bool)
    (sugs : List Suggestion) (sel : Str) :
    ((handleSearch course professor routeType resetSupplied sugs sel).route =
        Route.professorResults (navValue sel) ↔
      ∃ e ∈ sugs, e.suggestion = sel ∧ e.type = professorTypeLit) ∧
    ((handleSearch course professor routeType resetSupplied sugs sel).route =
        Route.courseResults (navValue sel) ↔
      ¬ ∃ e ∈ sugs, e.suggestion = sel ∧ e.type = professorTypeLit) := by
  have hfind :
      (sugs.find? (fun s => s.suggestion == sel && s.type == professorTypeLit)).isSome =
        true ↔ ∃ e ∈ sugs, e.suggestion = sel ∧ e.type = professorTypeLit := by
    rw [List.find?_isSome]
    constructor
    · rintro ⟨x, hx, hpx⟩
      simp only [Bool.and_eq_true, beq_iff_eq] at hpx
      exact ⟨x, hx, hpx⟩
    · rintro ⟨x, hx, h1, h2⟩
      exact ⟨x, hx, by simp [h1, h2]⟩
  have hroute : (handleSearch course professor routeType resetSupplied sugs sel).route =
      if (sugs.find? (fun s => s.suggestion == sel && s.type == professorTypeLit)).isSome
      then Route.professorResults (navValue sel)
      else Route.courseResults (navValue sel) := rfl
  cases hfs : (sugs.find? (fun s => s.suggestion == sel && s.type == professorTypeLit)).isSome with
  | true =>
    rw [hfs] at hroute
    simp only [if_true] at hroute
    rw [hroute]
    simp only [iff_true_intro (hfind.1 hfs)]
    simp
  | false =>
    rw [hfs] at hroute
    simp only [Bool.false_eq_true, if_false] at hroute
    rw [hroute]
    have hno : ¬ ∃ e ∈ sugs, e.suggestion = sel ∧ e.type = professorTypeLit := by
      intro hex
      rw [← hfind] at hex
      rw [hfs] at hex
      exact Bool.false_ne_true hex
    simp [hno]

/-! ## `split(" ")` facts -/

theorem splitSp_ne_nil : ∀ s : Str, splitSp s ≠ [] := by
  intro s
  cases s with
  | nil => simp [splitSp]
  | cons c cs =>
    cases h : splitSp cs with
    | nil => simp [splitSp, h]
    | cons w ws =>
      by_cases hc : c = ' ' <;> simp [splitSp, h, hc]

theorem splitSp_no_space : ∀ (s : Str) (w : Str), w ∈ splitSp s → ' ' ∉ w := by
  intro s
  induction s with
  | nil =>
    intro w hw
    simp only [splitSp, List.mem_singleton] at hw
    simp [hw]
  | cons c cs ih =>
    intro w hw
    cases h : splitSp cs with
    | nil => exact absurd h (splitSp_ne_nil cs)
    | cons w0 ws =>
      rw [splitSp, h] at hw
      by_cases hc : c = ' '
      · simp only [hc, if_true] at hw
        rcases List.mem_cons.1 hw with rfl | hw
        · simp
        · exact ih w (h ▸ hw)
      · simp only [hc, if_false] at hw
        rcases List.mem_cons.1 hw with rfl | hw
        · intro hmem
          rcases List.mem_cons.1 hmem with heq | hmem
          · exact hc heq.symm
          · exact ih w0 (h ▸ List.mem_cons_self _ _) hmem
        · exact ih w (h ▸ List.mem_cons_of_mem _ hw)

theorem splitSp_of_no_space : ∀ {w : Str}, ' ' ∉ w → splitSp w = [w] := by
  intro w
  induction w with
  | nil => intro _; rfl
  | cons c cs ih =>
    intro h
    have hc : c ≠ ' ' := fun hcc => h (hcc ▸ List.mem_cons_self _ _)
    have hcs : ' ' ∉ cs := fun hm => h (List.mem_cons_of_mem _ hm)
    rw [splitSp, ih hcs]
    simp [fun hcc => hc hcc]

theorem splitSp_append_space : ∀ {a : Str}, ' ' ∉ a →
    ∀ b : Str, splitSp (a ++ ' ' :: b) = a :: splitSp b := by
  intro a
  induction a with
  | nil =>
    intro _ b
    cases h : splitSp b with
    | nil => exact absurd h (splitSp_ne_nil b)
    | cons w ws => simp [splitSp, h]
  | cons c a' ih =>
    intro h b
    have hc : c ≠ ' ' := fun hcc => h (hcc ▸ List.mem_cons_self _ _)
    have ha' : ' ' ∉ a' := fun hm => h (List.mem_cons_of_mem _ hm)
    rw [List.cons_append, splitSp, ih ha' b]
    cases hb : splitSp b with
    | nil => exact absurd hb (splitSp_ne_nil b)
    | cons w ws => simp [hc]

/-! ## `Number()` accepts plain digit strings -/

theorem wfTail_of_all_nonws : ∀ {s : Str}, s.all (fun c => !isWs c) = true →
    wfTail s = true := by
  intro s
  induction s with
  | nil => intro _; rfl
  | cons c cs ih =>
    intro h
    simp only [List.all_cons, Bool.and_eq_true] at h
    cases cs with
    | nil => simpa [wfTail] using h.1
    | cons d r =>
      have := ih h.2
      simp [wfTail, this, h.1]

theorem noLead_of_all_nonws {s : Str} (h : s.all (fun c => !isWs c) = true) :
    noLeadWs s = true := by
  cases s with
  | nil => rfl
  | cons c cs =>
    simp only [List.all_cons, Bool.and_eq_true] at h
    simpa [noLeadWs] using h.1

theorem trimWs_of_all_nonws {s : Str} (h : s.all (fun c => !isWs c) = true) :
    trimWs s = s :=
  trimWs_of_wf (noLead_of_all_nonws h) (wfTail_of_all_nonws h)

theorem all_digit_nonws {s : Str} (h : s.all isDigitCh = true) :
    s.all (fun c => !isWs c) = true := by
  simp only [List.all_eq_true] at h ⊢
  intro c hc
  simp [digit_not_ws (h c hc)]

theorem takeWhile_of_all {p : Char → Bool} {s : Str} (h : s.all p = true) :
    s.takeWhile p = s := by
  have := takeWhile_append_all (D := []) h
  simpa using this

theorem dropWhile_of_all {p : Char → Bool} {s : Str} (h : s.all p = true) :
    s.dropWhile p = [] := by
  have := dropWhile_append_all (D := []) h
  simpa using this

theorem unsignedDec_digits {s : Str} (hne : s ≠ []) (h : s.all isDigitCh = true) :
    unsignedDec s = true := by
  rw [unsignedDec]
  simp only [takeWhile_of_all h, dropWhile_of_all h]
  simpa [List.isEmpty_iff] using hne

theorem jsNotNaN_digits {s : Str} (hne : s ≠ []) (h : s.all isDigitCh = true) :
    jsNotNaN s = true := by
  rw [jsNotNaN, trimWs_of_all_nonws (all_digit_nonws h)]
  cases s with
  | nil => exact absurd rfl hne
  | cons c cs =>
    simp only [List.all_cons, Bool.and_eq_true] at h
    have hcd := h.1
    have hplus : (c == '+') = false := by
      refine beq_eq_false_iff_ne.2 (fun hcc => ?_)
      rw [hcc] at hcd
      simp [isDigitCh] at hcd
    have hminus : (c == '-') = false := by
      refine beq_eq_false_iff_ne.2 (fun hcc => ?_)
      rw [hcc] at hcd
      simp [isDigitCh] at hcd
    simp only [hplus, hminus, Bool.or_false, Bool.false_eq_true, if_false]
    by_cases hc0 : (c == '0') = true
    · simp only [hc0, if_true]
      cases cs with
      | nil => rfl
      | cons d ds =>
        have hdd : isDigitCh d = true := by
          have := h.2
          simp only [List.all_cons, Bool.and_eq_true] at this
          exact this.1
        have hx : (d == 'x') = false := by
          refine beq_eq_false_iff_ne.2 (fun hh => ?_)
          rw [hh] at hdd; simp [isDigitCh] at hdd
        have hX : (d == 'X') = false := by
          refine beq_eq_false_iff_ne.2 (fun hh => ?_)
          rw [hh] at hdd; simp [isDigitCh] at hdd
        have ho : (d == 'o') = false := by
          refine beq_eq_false_iff_ne.2 (fun hh => ?_)
          rw [hh] at hdd; simp [isDigitCh] at hdd
        have hO : (d == 'O') = false := by
          refine beq_eq_false_iff_ne.2 (fun hh => ?_)
          rw [hh] at hdd; simp [isDigitCh] at hdd
        have hb : (d == 'b') = false := by
          refine beq_eq_false_iff_ne.2 (fun hh => ?_)
          rw [hh] at hdd; simp [isDigitCh] at hdd
        have hB : (d == 'B') = false := by
          refine beq_eq_false_iff_ne.2 (fun hh => ?_)
          rw [hh] at hdd; simp [isDigitCh] at hdd
        simp only [hx, hX, ho, hO, hb, hB, Bool.or_false, Bool.false_eq_true, if_false]
        exact unsignedDec_digits (by simp) (by simp [hcd, h.2])
    · have hc0f : (c == '0') = false := by simpa using hc0
      simp only [hc0f, Bool.false_eq_true, if_false, unsignedDecOrInf]
      rw [unsignedDec_digits (by simp) (by simp [hcd, h.2])]
      simp

/-- **C8.** When the first two space-separated tokens of the selected
suggestion are a prefix and a 4-digit number, the value carried into
the navigation route is exactly `"<PREFIX> <NUMBER>"`, discarding any
trailing title text. -/
theorem navValue_four_digit (sel pfx num : Str) (rest : List Str)
    (hsplit : splitSp sel = pfx :: num :: rest) (hlen : num.length = 4)
    (hdig : num.all isDigitCh = true) : navValue sel = pfx ++ ' ' :: num := by
  have hpfx : ' ' ∉ pfx :=
    splitSp_no_space sel pfx (hsplit ▸ List.mem_cons_self _ _)
  have hnum : ' ' ∉ num :=
    splitSp_no_space sel num
      (hsplit ▸ List.mem_cons_of_mem _ (List.mem_cons_self _ _))
  have hcs : courseSuggestionOf sel = pfx ++ ' ' :: num := by
    rw [courseSuggestionOf, hsplit]
    rfl
  have hresplit : splitSp (courseSuggestionOf sel) = [pfx, num] := by
    rw [hcs, splitSp_append_space hpfx, splitSp_of_no_space hnum]
  have hnne : num ≠ [] := by
    intro hn
    rw [hn] at hlen
    simp at hlen
  rw [navValue, hresplit]
  simp [hlen, jsNotNaN_digits hnne hdig]

/-- Witness for C8: selecting `"CSE 3320 OS"` navigates with value
`"CSE 3320"`. -/
theorem navValue_four_digit_witness :
    navValue ['C', 'S', 'E', ' ', '3', '3', '2', '0', ' ', 'O', 'S'] =
      ['C', 'S', 'E', ' ', '3', '3', '2', '0'] :=
  navValue_four_digit ['C', 'S', 'E', ' ', '3', '3', '2', '0', ' ', 'O', 'S']
    ['C', 'S', 'E'] ['3', '3', '2', '0'] [['O', 'S']] (by decide) (by decide)
    (by decide)

/-- Counterexample for C2 as stated: after an empty-input keystroke at
time 0 the suggestion list is NOT yet cleared at time 0 — the
empty-input check sits inside the debounced callback, so the clear
only happens when the callback fires at the trailing edge of the
100 ms window. -/
theorem suggestions_not_cleared_immediately :
    ¬ (suggestionsAt (fun _ => []) [⟨['x'], ['c']⟩] [(0, [])] 0 = []) := by
  decide

/-- **C2 (amended).** An empty input never issues a network request,
and when the debounced callback fires for an empty input it sets the
suggestion list to empty; but every fire happens `debounceWait` ms
after its keystroke (trailing edge), never immediately. -/
theorem debouncedEmptyInput_spec (events : List (Nat × Str))
    (oracle : Str → List Suggestion) (init : List Suggestion)
    (fs : List (Nat × Str)) (t : Nat) :
    (requestsOf events).filter (fun e => e.2.isEmpty) = [] ∧
    suggestionsFold oracle init (fs ++ [(t, [])]) = [] ∧
    (fires events).Sublist (events.map (fun e => (e.1 + debounceWait, e.2))) := by
  refine ⟨?_, ?_, ?_⟩
  · rw [requestsOf, List.filter_filter]
    refine List.filter_eq_nil_iff.2 (fun e _ => ?_)
    cases he : e.2 with
    | nil => simp [he]
    | cons a l => simp [he, List.isEmpty]
  · rw [suggestionsFold, List.foldl_append]
    simp [bodySuggestions]
  · induction events with
    | nil => simp [fires]
    | cons e rest ih =>
      obtain ⟨te, se⟩ := e
      cases rest with
      | nil => simp [fires]
      | cons e' rest' =>
        obtain ⟨te', se'⟩ := e'
        rw [show fires ((te, se) :: (te', se') :: rest') =
            (if te + debounceWait < te' then [(te + debounceWait, se)] else []) ++
              fires ((te', se') :: rest') from rfl]
        by_cases hlt : te + debounceWait < te'
        · simp only [hlt, if_true, List.singleton_append, List.map_cons]
          exact List.Sublist.cons₂ _ ih
        · simp only [hlt, if_false, List.nil_append, List.map_cons]
          exact List.Sublist.cons _ ih

/-- **C6.** For a non-empty input, the debounced dispatch always ends
with the loading flag cleared, and on a fetch/parse failure it logs
once and sets the suggestion list to empty; the failure is absorbed,
never propagated (`runDispatch` is total). -/
theorem runDispatch_spec (input : Str) (res : FetchResult) (st : FetcherState)
    (h : 0 < input.length) :
    (runDispatch input res st).1.isLoading = false ∧
    (res = FetchResult.err →
      (runDispatch input res st).1.suggestions = [] ∧
      (runDispatch input res st).2 = 1) := by
  cases res <;> simp [runDispatch, h]

/-- Witness for C6 at a concrete failing dispatch. -/
theorem runDispatch_spec_witness :
    (runDispatch ['a'] FetchResult.err ⟨[⟨['x'], ['c']⟩], true⟩).1.isLoading = false ∧
    (runDispatch ['a'] FetchResult.err ⟨[⟨['x'], ['c']⟩], true⟩).1.suggestions = [] ∧
    (runDispatch ['a'] FetchResult.err ⟨[⟨['x'], ['c']⟩], true⟩).2 = 1 :=
  ⟨(runDispatch_spec ['a'] FetchResult.err ⟨[⟨['x'], ['c']⟩], true⟩ (by decide)).1,
   (runDispatch_spec ['a'] FetchResult.err ⟨[⟨['x'], ['c']⟩], true⟩ (by decide)).2 rfl⟩
